import Mathlib

/-!
Verification of the gc-alexandria core: a shallow embedding of the
AsciidoctorTree decomposer, the PublicationTree indexed tree, the lazy
depth-first resolver, and the section-content reconstructor, with theorems
checking the specification's claims against the translated code.

JS `Map` objects are modelled as association lists with `Map.set` semantics
(update the entry in place when the key exists, append otherwise); JS
arrays used as stacks are modelled as Lean lists whose HEAD is the array's
END, so JS `push`/`pop` act on the list head.
-/

namespace Alexandria

/-- Association-list lookup, modelling `Map.get`. -/
def lookupBy {κ α : Type} [DecidableEq κ] : List (κ × α) → κ → Option α
  | [], _ => none
  | p :: rest, k => if p.1 = k then some p.2 else lookupBy rest k

/-- Association-list insertion, modelling `Map.set`: replaces the entry in
place when the key is present, appends otherwise. -/
def setBy {κ α : Type} [DecidableEq κ] : List (κ × α) → κ → α → List (κ × α)
  | [], k, v => [(k, v)]
  | p :: rest, k, v => if p.1 = k then (k, v) :: rest else p :: setBy rest k v

/-- In-place update of the entry at a key, a no-op when the key is absent
(models mutating a node object retrieved from a JS `Map`). -/
def updateBy {κ α : Type} [DecidableEq κ] : List (κ × α) → κ → (α → α) → List (κ × α)
  | [], _, _ => []
  | p :: rest, k, f => if p.1 = k then (p.1, f p.2) :: rest else p :: updateBy rest k f

theorem lookupBy_setBy_self {κ α : Type} [DecidableEq κ] (m : List (κ × α)) (k : κ) (v : α) :
    lookupBy (setBy m k v) k = some v := by
  induction m with
  | nil => simp [setBy, lookupBy]
  | cons p rest ih =>
    by_cases hp : p.1 = k
    · simp [setBy, lookupBy, hp]
    · simp [setBy, lookupBy, hp, ih]

theorem lookupBy_setBy_other {κ α : Type} [DecidableEq κ] (m : List (κ × α)) (k k' : κ) (v : α)
    (hne : k' ≠ k) : lookupBy (setBy m k v) k' = lookupBy m k' := by
  induction m with
  | nil =>
    have h1 : ¬ (k = k') := fun h => hne h.symm
    simp [setBy, lookupBy, h1]
  | cons p rest ih =>
    by_cases hp : p.1 = k
    · have h1 : ¬ (p.1 = k') := by rw [hp]; exact fun h => hne h.symm
      simp only [setBy, if_pos hp, lookupBy]
      rw [if_neg (fun h => hne h.symm), if_neg h1]
    · simp only [setBy, if_neg hp, lookupBy]
      by_cases hp' : p.1 = k'
      · rw [if_pos hp', if_pos hp']
      · rw [if_neg hp', if_neg hp', ih]

/-- A key present in a map stays present after any `setBy`. -/
theorem lookupBy_setBy_isSome {κ α : Type} [DecidableEq κ] (m : List (κ × α)) (k k' : κ) (v : α)
    (h : (lookupBy m k').isSome) : (lookupBy (setBy m k v) k').isSome := by
  by_cases hk : k' = k
  · subst hk; rw [lookupBy_setBy_self]; rfl
  · rwa [lookupBy_setBy_other _ _ _ _ hk]

theorem lookupBy_updateBy_self {κ α : Type} [DecidableEq κ] (m : List (κ × α)) (k : κ)
    (f : α → α) : lookupBy (updateBy m k f) k = (lookupBy m k).map f := by
  induction m with
  | nil => simp [updateBy, lookupBy]
  | cons p rest ih =>
    by_cases hp : p.1 = k
    · simp [updateBy, lookupBy, hp]
    · simp [updateBy, lookupBy, hp, ih]

theorem lookupBy_updateBy_other {κ α : Type} [DecidableEq κ] (m : List (κ × α)) (k k' : κ)
    (f : α → α) (hne : k' ≠ k) : lookupBy (updateBy m k f) k' = lookupBy m k' := by
  induction m with
  | nil => simp [updateBy, lookupBy]
  | cons p rest ih =>
    by_cases hp : p.1 = k
    · have h1 : ¬ (p.1 = k') := by rw [hp]; exact fun h => hne h.symm
      simp only [updateBy, if_pos hp, lookupBy]
      rw [if_neg h1, if_neg h1]
    · simp only [updateBy, if_neg hp, lookupBy]
      by_cases hp' : p.1 = k'
      · rw [if_pos hp', if_pos hp']
      · rw [if_neg hp', if_neg hp', ih]

/-! ## Error kinds thrown by the core (JS `throw new Error(...)`) -/

inductive Err : Type where
  | rootNotSet : Err
  | parentNotFound : String → Err
  | invalidAddress : String → Err
deriving DecidableEq, Repr

instance {e a : Type} [DecidableEq e] [DecidableEq a] : DecidableEq (Except e a) := fun x y =>
  match x, y with
  | .ok u, .ok v =>
    if h : u = v then isTrue (by rw [h]) else isFalse (by intro hc; injection hc; contradiction)
  | .error u, .error v =>
    if h : u = v then isTrue (by rw [h]) else isFalse (by intro hc; injection hc; contradiction)
  | .ok _, .error _ => isFalse (by intro hc; injection hc)
  | .error _, .ok _ => isFalse (by intro hc; injection hc)

/-! ## AsciidoctorTree decomposer (src/unnamed/part_002)

An Asciidoctor block is modelled by `ADoc`: its (set-at-parse-time) explicit
id, title, context string, source content and nested blocks.  Each block
carries a label `lbl` standing for JS object identity, so that the
`block.setId(...)` mutation performed by `generateAddress` can be modelled
as a map from labels to overriding ids held in the tree state. -/

inductive ADoc : Type where
  | mk (lbl : Nat) (ident : Option String) (title : Option String) (context : String)
      (content : String) (blocks : List ADoc)
deriving Repr

def ADoc.lbl : ADoc → Nat
  | .mk l _ _ _ _ _ => l

def ADoc.ident : ADoc → Option String
  | .mk _ i _ _ _ _ => i

def ADoc.title : ADoc → Option String
  | .mk _ _ t _ _ _ => t

def ADoc.context : ADoc → String
  | .mk _ _ _ c _ _ => c

def ADoc.content : ADoc → String
  | .mk _ _ _ _ s _ => s

def ADoc.blocks : ADoc → List ADoc
  | .mk _ _ _ _ _ bs => bs

/-- Number of blocks in a document (for termination of the BFS loop). -/
def asize : ADoc → Nat
  | .mk _ _ _ _ _ bs => 1 + (bs.attach.map (fun c => asize c.1)).sum
decreasing_by
  have := List.sizeOf_lt_of_mem c.2
  simp only [ADoc.mk.sizeOf_spec]
  omega

theorem asize_eq (b : ADoc) : asize b = 1 + (b.blocks.map asize).sum := by
  cases b with
  | mk l i t c s bs =>
    show asize (.mk l i t c s bs) = 1 + (bs.map asize).sum
    rw [asize]
    congr 1
    rw [List.attach_map_val bs asize]

/-- Returns `true` for characters kept by the final strip in `normalizeId`
(the regex `[^a-z0-9\-]` removal). -/
def allowedChar (c : Char) : Bool :=
  ('a' ≤ c && c ≤ 'z') || ('0' ≤ c && c ≤ '9') || c = '-'

/-- One pass of the JS regex replace `\s+` → `-`: every whitespace run
becomes a single dash.  The flag records whether the previous character was
whitespace. -/
def collapseWsAux : Bool → List Char → List Char
  | _, [] => []
  | prevWs, c :: cs =>
    if c.isWhitespace then
      if prevWs then collapseWsAux true cs else '-' :: collapseWsAux true cs
    else c :: collapseWsAux false cs

def underscoreToSpace (c : Char) : Char := if c = '_' then ' ' else c

/-- JS `String.prototype.trim`: strip leading and trailing whitespace. -/
def trimChars (l : List Char) : List Char :=
  ((l.dropWhile Char.isWhitespace).reverse.dropWhile Char.isWhitespace).reverse

/-- JS `String.prototype.split(':')`: `""` yields `[""]`, separators at the
ends yield empty segments. -/
def splitColonAux : List Char → List (List Char)
  | [] => [[]]
  | c :: cs =>
    if c = ':' then [] :: splitColonAux cs
    else
      match splitColonAux cs with
      | [] => [[c]]
      | g :: gs => (c :: g) :: gs

def splitColon (s : String) : List String :=
  (splitColonAux s.data).map String.mk

/-- Models `AsciidoctorTree.normalizeId`.  The character-entity decoding performed
by the external `he.decode` library is abstracted as the parameter `dec`;
the rest is the source pipeline: lowercase (ASCII, via `Char.toLower`),
underscores to spaces, trim, collapse whitespace runs to single dashes,
strip characters outside `[a-z0-9-]`.  Returns `none` for a `null`/empty
input. -/
def normalizeId (dec : String → String) : Option String → Option String
  | none => none
  | some s =>
    if s.data.length = 0 then none
    else
      some (String.mk ((collapseWsAux false
        (trimChars (((dec s).data.map Char.toLower).map underscoreToSpace))).filter
          allowedChar))

/-- A node of the decomposer's tree (`AsciidoctorTreeNode`): the block's
`content` field is never written by `addNode`/`processAST`, so it is
omitted; `children` holds the addresses of the child nodes in insertion
order. -/
structure ANode where
  address : String
  title : Option String
  children : List String
deriving DecidableEq, Repr

/-- The mutable state of an `AsciidoctorTree` instance: root address,
`nodes`, `contextCounters`, `eventToContextMap`, `eventToKindMap`, the
`pubkey` field, and `idOverrides` recording the `block.setId` mutations
keyed by block label. -/
structure AState where
  root : Option String
  nodes : List (String × ANode)
  contextCounters : List (String × Nat)
  eventToContext : List (String × String)
  eventToKind : List (String × Nat)
  idOverrides : List (Nat × String)
  pubkey : String
deriving DecidableEq, Repr

def AState.init (pk : String) : AState :=
  { root := none, nodes := [], contextCounters := [], eventToContext := [],
    eventToKind := [], idOverrides := [], pubkey := pk }

/-- Models `block.getId()`: the override written by a previous `setId`, if any,
else the block's original explicit id. -/
def getId (st : AState) (b : ADoc) : Option String :=
  match lookupBy st.idOverrides b.lbl with
  | some s => some s
  | none => b.ident

/-- The context strings with a dedicated `case` in `generateAddress`'s
switch; any other context falls to the `default` branch keyed `"block"`. -/
def knownContexts : List String :=
  ["admonition", "audio", "colist", "dlist", "document", "example",
   "floating_title", "image", "list_item", "listing", "literal", "olist",
   "open", "page_break", "paragraph", "pass", "preamble", "quote", "section",
   "sidebar", "table", "table_cell", "thematic_break", "toc", "ulist",
   "verse", "video"]

/-- Underscores become dashes in the synthesized address segment
(e.g. `floating_title` → `floating-title`), per the switch cases. -/
def dashify (s : String) : String :=
  String.mk (s.data.map (fun c => if c = '_' then '-' else c))

/-- Fallback branch of `generateAddress` (no usable id or title): mints
`{documentDTag}-{contextName}-{counter}`, increments that context's
counter, prefixes `30040:{pubkey}:` for sections and `30041:{pubkey}:`
otherwise, records the kind and context, and `setId`s the block to the
full address.  `documentDTag` is `rootAddress.split(':')[2]`, which is JS
`undefined` (interpolated as `"undefined"`) when the root address has
fewer than three segments; `getRootNode()` throws when no root is set. -/
def aGenFallback (st : AState) (b : ADoc) : Except Err (String × AState) :=
  match st.root with
  | none => .error .rootNotSet
  | some rootAddr =>
    let documentDTag := (splitColon rootAddr).getD 2 "undefined"
    let c := b.context
    let counterKey := if knownContexts.contains c then c else "block"
    let contextName := if knownContexts.contains c then dashify c else "block"
    let isIndex := c = "section"
    let n := (lookupBy st.contextCounters counterKey).getD 0
    let base := documentDTag ++ "-" ++ contextName ++ "-" ++ toString n
    let kind : Nat := if isIndex then 30040 else 30041
    let full := (if isIndex then "30040:" else "30041:") ++ st.pubkey ++ ":" ++ base
    .ok (full, { st with
      contextCounters := setBy st.contextCounters counterKey (n + 1),
      eventToKind := setBy st.eventToKind base kind,
      idOverrides := setBy st.idOverrides b.lbl full,
      eventToContext := setBy st.eventToContext full c })

/-- Title branch of `generateAddress`: use the normalized title if
non-empty, else fall back. -/
def aGenTitleOrFallback (dec : String → String) (st : AState) (b : ADoc) :
    Except Err (String × AState) :=
  match normalizeId dec b.title with
  | some s => if s.length > 0 then .ok (s, st) else aGenFallback st b
  | none => aGenFallback st b

/-- Models `AsciidoctorTree.generateAddress`: normalized explicit id if non-empty,
else normalized title if non-empty, else the synthesized fallback. -/
def aGenerateAddress (dec : String → String) (st : AState) (b : ADoc) :
    Except Err (String × AState) :=
  match normalizeId dec (getId st b) with
  | some s => if s.length > 0 then .ok (s, st) else aGenTitleOrFallback dec st b
  | none => aGenTitleOrFallback dec st b

/-- Models `AsciidoctorTree.addNode`: generate the address; return unchanged if it
is already a key of `nodes` (duplicate prevention); otherwise store a fresh
node under it and push it onto the parent's children.  The JS code reads
the parent through `getNodeByAddress(parentNode.address)!`, crashing when
the parent is not stored; that crash is the `parentNotFound` error. -/
def aAddNode (dec : String → String) (st : AState) (b : ADoc) (parentAddress : String) :
    Except Err AState :=
  match aGenerateAddress dec st b with
  | .error e => .error e
  | .ok (address, st1) =>
    if (lookupBy st1.nodes address).isSome then .ok st1
    else
      let treeNode : ANode := { address := address, title := b.title, children := [] }
      let st2 := { st1 with nodes := setBy st1.nodes address treeNode }
      match lookupBy st2.nodes parentAddress with
      | none => .error (.parentNotFound parentAddress)
      | some _ =>
        let push := fun (n : ANode) => { n with children := n.children ++ [address] }
        .ok { st2 with nodes := updateBy st2.nodes parentAddress push }

/-- Models `AsciidoctorTree.processSection` minus its `return section.getBlocks()`
(the BFS loop enqueues `b.blocks` directly): address the section, resolve
the parent's address, add the node, record kind 30040. -/
def processSection (dec : String → String) (st : AState) (b par : ADoc) :
    Except Err AState :=
  match aGenerateAddress dec st b with
  | .error e => .error e
  | .ok (address, st1) =>
    match aGenerateAddress dec st1 par with
    | .error e => .error e
    | .ok (parentAddress, st2) =>
      match aAddNode dec st2 b parentAddress with
      | .error e => .error e
      | .ok st3 => .ok { st3 with eventToKind := setBy st3.eventToKind address 30040 }

/-- Models `AsciidoctorTree.processBlock`: like `processSection` but records kind
30041 and enqueues nothing. -/
def processBlock (dec : String → String) (st : AState) (b par : ADoc) :
    Except Err AState :=
  match aGenerateAddress dec st b with
  | .error e => .error e
  | .ok (address, st1) =>
    match aGenerateAddress dec st1 par with
    | .error e => .error e
    | .ok (parentAddress, st2) =>
      match aAddNode dec st2 b parentAddress with
      | .error e => .error e
      | .ok st3 => .ok { st3 with eventToKind := setBy st3.eventToKind address 30041 }

def qsize (q : List (ADoc × ADoc)) : Nat := (q.map (fun p => asize p.1)).sum

theorem qsize_cons (b par : ADoc) (rest : List (ADoc × ADoc)) :
    qsize ((b, par) :: rest) = asize b + qsize rest := by
  simp [qsize]

theorem qsize_append (q1 q2 : List (ADoc × ADoc)) :
    qsize (q1 ++ q2) = qsize q1 + qsize q2 := by
  simp [qsize]

theorem qsize_map_pair (bs : List ADoc) (b : ADoc) :
    qsize (bs.map (fun c => (c, b))) = (bs.map asize).sum := by
  simp [qsize, List.map_map]; rfl

/-- The FIFO loop of `processAST`: dequeue a block (paired with its parent,
standing for `block.getParent()`); sections are processed and their blocks
enqueued, other blocks are processed and nothing is enqueued. -/
def bfs (dec : String → String) : AState → List (ADoc × ADoc) → Except Err AState
  | st, [] => .ok st
  | st, (b, par) :: rest =>
    if b.context = "section" then
      match processSection dec st b par with
      | .error e => .error e
      | .ok st' => bfs dec st' (rest ++ b.blocks.map (fun c => (c, b)))
    else
      match processBlock dec st b par with
      | .error e => .error e
      | .ok st' => bfs dec st' rest
termination_by _ q => qsize q
decreasing_by
  · rw [qsize_append, qsize_cons, qsize_map_pair]
    have := asize_eq b
    omega
  · rw [qsize_cons]
    have := asize_eq b
    omega

/-- Models `AsciidoctorTree.processAST` on a fresh tree instance with the given
pubkey: address the document, install it as root, then run the BFS queue
over its top-level blocks (whose `getParent()` is the document). -/
def processAST (dec : String → String) (pk : String) (doc : ADoc) : Except Err AState :=
  match aGenerateAddress dec (AState.init pk) doc with
  | .error e => .error e
  | .ok (rootAddress, st1) =>
    let rootNode : ANode := { address := rootAddress, title := doc.title, children := [] }
    let st2 : AState :=
      { st1 with
          root := some rootAddress,
          nodes := setBy st1.nodes rootAddress rootNode,
          eventToKind := setBy st1.eventToKind rootAddress 30040 }
    bfs dec st2 (doc.blocks.map (fun b => (b, doc)))

/-- Erase the block contents of a document, keeping structure, labels,
explicit ids, titles, contexts and ordering: two documents with equal
erasures are "the same unchanged document" in the sense of the
idempotence requirement. -/
def erase : ADoc → ADoc
  | .mk l i t c _ bs => .mk l i t c "" (bs.attach.map (fun x => erase x.1))
decreasing_by
  have := List.sizeOf_lt_of_mem x.2
  simp only [ADoc.mk.sizeOf_spec]
  omega

theorem erase_mk (l : Nat) (i t : Option String) (c s : String) (bs : List ADoc) :
    erase (.mk l i t c s bs) = .mk l i t c "" (bs.map erase) := by
  rw [erase]
  congr 1
  rw [List.attach_map_val bs erase]

/-! ## PublicationTree (src/unnamed/part_003)

Nostr events and the dual-indexed publication tree.  JS node objects linked
by reference are modelled as an arena: `PTree.arena` is the list of all
node objects ever created (the root at index 0), and parent/children links
are arena indices, so index equality is JS object identity. -/

structure NDKEvent where
  id : String
  kind : Option Int
  pubkey : String
  tags : List (List String)
  content : String
deriving DecidableEq, Repr

/-- Models `NDKEvent.dTag` (external NDK collaborator): the value of the first
`d` tag, if any. -/
def NDKEvent.dTag (e : NDKEvent) : Option String :=
  (e.tags.find? (fun t => t.getD 0 "" = "d")).bind (fun t => t.get? 1)

/-- Models `NDKEvent.isParamReplaceable` (external NDK collaborator): kind in
`[30000, 40000)`. -/
def NDKEvent.isParamReplaceable (e : NDKEvent) : Bool :=
  match e.kind with
  | some k => 30000 ≤ k && k < 40000
  | none => false

/-- Models `NDKEvent.isReplaceable` (external NDK collaborator): kind 0, 3,
`[10000, 20000)` or `[30000, 40000)`. -/
def NDKEvent.isReplaceable (e : NDKEvent) : Bool :=
  match e.kind with
  | some k => k = 0 || k = 3 || (10000 ≤ k && k < 20000) || (30000 ≤ k && k < 40000)
  | none => false

/-- JS template interpolation of `event.kind` (the string `"undefined"`
when the kind is absent). -/
def NDKEvent.kindStr (e : NDKEvent) : String :=
  match e.kind with
  | some k => toString k
  | none => "undefined"

/-- Models `PublicationTree.getEventAddress`: `kind:pubkey:dTag` for
parameterized-replaceable events, `kind:pubkey` for replaceable events,
`null` otherwise. -/
def eventAddress (e : NDKEvent) : Option String :=
  if e.isParamReplaceable then
    some (e.kindStr ++ ":" ++ e.pubkey ++ ":" ++ (e.dTag.getD "undefined"))
  else if e.isReplaceable then
    some (e.kindStr ++ ":" ++ e.pubkey)
  else
    none

/-- A `PublicationTreeNode`: its event, parent link and children links as
arena indices. -/
structure PNode where
  event : NDKEvent
  parent : Option Nat
  children : List Nat
deriving DecidableEq, Repr

/-- A `PublicationTree` instance: the arena of node objects (root at index
0) and the `nodesById` / `nodesByAddress` maps into it. -/
structure PTree where
  arena : List PNode
  byId : List (String × Nat)
  byAddr : List (String × Nat)
deriving DecidableEq, Repr

/-- The `PublicationTree` constructor: a root node registered under its id
and, if derivable, its address. -/
def mkPTree (rootEvent : NDKEvent) : PTree :=
  { arena := [{ event := rootEvent, parent := none, children := [] }],
    byId := [(rootEvent.id, 0)],
    byAddr := match eventAddress rootEvent with
      | some a => [(a, 0)]
      | none => [] }

/-- Positional in-place update of a list element (mutation of a node object
reached through the arena). -/
def listUpd {α : Type} : List α → Nat → (α → α) → List α
  | [], _, _ => []
  | a :: rest, 0, f => f a :: rest
  | a :: rest, n + 1, f => a :: listUpd rest n f

theorem listUpd_get_self {α : Type} (l : List α) (i : Nat) (f : α → α) :
    (listUpd l i f).get? i = (l.get? i).map f := by
  induction l generalizing i with
  | nil => simp [listUpd]
  | cons a rest ih =>
    cases i with
    | zero => simp [listUpd]
    | succ n => simpa [listUpd] using ih n

theorem listUpd_get_other {α : Type} (l : List α) (i j : Nat) (f : α → α) (h : j ≠ i) :
    (listUpd l i f).get? j = l.get? j := by
  induction l generalizing i j with
  | nil => simp [listUpd]
  | cons a rest ih =>
    cases i with
    | zero =>
      cases j with
      | zero => exact absurd rfl h
      | succ m => simp [listUpd]
    | succ n =>
      cases j with
      | zero => simp [listUpd]
      | succ m => simpa [listUpd] using ih n m (fun hc => h (by rw [hc]))

theorem listUpd_length {α : Type} (l : List α) (i : Nat) (f : α → α) :
    (listUpd l i f).length = l.length := by
  induction l generalizing i with
  | nil => rfl
  | cons a rest ih =>
    cases i with
    | zero => simp [listUpd]
    | succ n => simpa [listUpd] using ih n

/-- The string overload of `PublicationTree.getNode`: the id index first,
then the address index. -/
def getNodeKey (t : PTree) (s : String) : Option Nat :=
  match lookupBy t.byId s with
  | some i => some i
  | none => lookupBy t.byAddr s

/-- The `NDKEvent | string` union taken by `addNode`'s `parent` parameter. -/
inductive PKey : Type where
  | evt : NDKEvent → PKey
  | str : String → PKey
deriving DecidableEq, Repr

/-- The id string through which a `PKey` is looked up: a string key itself,
an event key via its `id` (both `addNode` branches call the string
`getNode` overload on this string). -/
def keyStr : PKey → String
  | .evt e => e.id
  | .str s => s

def resolveKey (t : PTree) (k : PKey) : Option Nat :=
  getNodeKey t (keyStr k)

/-- Models `PublicationTree.addNode`: resolve the parent key (throwing
`Parent event ... not found.` when it does not resolve, before any
mutation), then create the node, register it under its id and (if
derivable) address, and push it onto the parent's children.  The returned
tree is the state after the call, unchanged on the error path. -/
def pAddNode (t : PTree) (e : NDKEvent) (k : PKey) : Except Err Unit × PTree :=
  match resolveKey t k with
  | none => (.error (.parentNotFound (keyStr k)), t)
  | some pidx =>
    let newIdx := t.arena.length
    let node : PNode := { event := e, parent := some pidx, children := [] }
    let pushChild := fun (n : PNode) => { n with children := n.children ++ [newIdx] }
    (.ok (), { arena := listUpd (t.arena ++ [node]) pidx pushChild,
               byId := setBy t.byId e.id newIdx,
               byAddr := match eventAddress e with
                 | some a => setBy t.byAddr a newIdx
                 | none => t.byAddr })

/-- Models `PublicationTree.getParent` (both overloads funnel the id string into
the string `getNode`): the parent node of the resolved node, if any. -/
def pGetParent (t : PTree) (s : String) : Option Nat :=
  (getNodeKey t s).bind (fun i => (t.arena.get? i).bind (fun n => n.parent))

/-- Models `PublicationTree.getChildren`: the children of the resolved node, or
`[]` when the key does not resolve. -/
def pGetChildren (t : PTree) (s : String) : List Nat :=
  ((getNodeKey t s).bind (fun i => (t.arena.get? i).map (fun n => n.children))).getD []

/-- Reads `child.event.id` for an arena index (total: a dangling index, which JS
could not produce, reads as `"undefined"`). -/
def childEventId (t : PTree) (c : Nat) : String :=
  ((t.arena.get? c).map (fun n => n.event.id)).getD "undefined"

/-- Models `PublicationTree.getSiblings`: the children of the resolved node's
parent, minus every child whose event id equals the given key string. -/
def pGetSiblings (t : PTree) (s : String) : List Nat :=
  match (getNodeKey t s).bind (fun i => t.arena.get? i) with
  | none => []
  | some n =>
    match n.parent with
    | none => []
    | some pi =>
      match t.arena.get? pi with
      | none => []
      | some pn => pn.children.filter (fun c => decide (childEventId t c ≠ s))

/-! ## Lazy depth-first resolver (src/unnamed/part_003, `depthFirstFindEvent`)

The NDK network client is abstracted as a `Fetcher`; each reference is
dispatched to one fetch according to its colon-segment shape.  The JS work
stack is an array with `push`/`pop` at the end, modelled as a list whose
head is the array end.  The loop additionally returns a ghost trace of the
event ids of the popped (visited) nodes, used only to state ordering
properties; it does not influence the computation. -/

structure Fetcher where
  fetchId : String → Option NDKEvent
  fetchAddr : String → String → Option String → Option NDKEvent

/-- One arm of the `switch` in `fetchEventsByAddresses`: split the
reference on `:` and dispatch by segment count; any other shape throws
`Address ... is in an unsupported format.`. -/
def dispatchFetch (f : Fetcher) (address : String) : Except Err (Option NDKEvent) :=
  match splitColon address with
  | [i] => .ok (f.fetchId i)
  | [kind, pubkey] => .ok (f.fetchAddr kind pubkey none)
  | [kind, pubkey, dTag] => .ok (f.fetchAddr kind pubkey (some dTag))
  | _ => .error (.invalidAddress address)

/-- A reference shape the `switch` supports: 1, 2 or 3 colon-separated
segments. -/
def wellFormedAddr (address : String) : Bool :=
  match splitColon address with
  | [_] => true
  | [_, _] => true
  | [_, _, _] => true
  | _ => false

/-- Models `fetchEventsByAddresses`: one dispatch per reference, in order; a
malformed reference throws while the batch is being built, so nothing
after it is dispatched and the whole call fails. -/
def fetchEventsByAddresses (f : Fetcher) : List String → Except Err (List (Option NDKEvent))
  | [] => .ok []
  | a :: rest =>
    match dispatchFetch f a with
    | .error e => .error e
    | .ok r =>
      match fetchEventsByAddresses f rest with
      | .error e => .error e
      | .ok rs => .ok (r :: rs)

/-- The child references of a node's event: the second entry of each `a` or
`e` tag. -/
def childAddresses (e : NDKEvent) : List String :=
  (e.tags.filter (fun tag => tag.getD 0 "" == "a" || tag.getD 0 "" == "e")).map
    (fun tag => tag.getD 1 "undefined")

/-- The `forEach` insertion after a fetch round: each fetched event is
added under the popped node's event id; `null` results are skipped; an
`addNode` throw propagates. -/
def insertFetched (t : PTree) (parentId : String) : List (Option NDKEvent) → Except Err PTree
  | [] => .ok t
  | none :: rest => insertFetched t parentId rest
  | some e :: rest =>
    match pAddNode t e (.str parentId) with
    | (.error err, _) => .error err
    | (.ok _, t') => insertFetched t' parentId rest

/-- One fetch round of the traversal loop: filter out references already in
the tree, fetch the rest as one batch, insert the successes. -/
def fetchRound (f : Fetcher) (t : PTree) (cur : PNode) : Except Err PTree :=
  let unfetched := (childAddresses cur.event).filter (fun a => (getNodeKey t a).isNone)
  match fetchEventsByAddresses f unfetched with
  | .error e => .error e
  | .ok events => insertFetched t cur.event.id events

/-- Prepend a popped node's event id to the ghost visit trace of a loop
result. -/
def traceCons (s : String) :
    Except Err (Option NDKEvent × PTree × List String) →
      Except Err (Option NDKEvent × PTree × List String)
  | .error e => .error e
  | .ok (r, t, tr) => .ok (r, t, s :: tr)

/-- The `while` loop of `depthFirstFindEvent`, with explicit fuel (the
source can loop as long as fetches keep yielding new references): pop a
node; if it declares no child references, continue; otherwise run a fetch
round, return the target's event if it now resolves, else push the popped
node's children onto the stack (`stack.push(...children)` appends them in
document order, so in the head-is-top model the reversed children are
prepended) and continue.  An empty stack yields `null`. -/
def dfLoop (f : Fetcher) (targetId : String) :
    Nat → PTree → List Nat → Except Err (Option NDKEvent × PTree × List String)
  | _, t, [] => .ok (none, t, [])
  | 0, t, _ :: _ => .ok (none, t, [])
  | fuel + 1, t, i :: rest =>
    match t.arena.get? i with
    | none => .ok (none, t, [])
    | some cur =>
      if (childAddresses cur.event).isEmpty then
        traceCons cur.event.id (dfLoop f targetId fuel t rest)
      else
        match fetchRound f t cur with
        | .error e => .error e
        | .ok t' =>
          match getNodeKey t' targetId with
          | some ti =>
            traceCons cur.event.id (.ok ((t'.arena.get? ti).map (fun n => n.event), t', []))
          | none =>
            traceCons cur.event.id
              (dfLoop f targetId fuel t' ((pGetChildren t' cur.event.id).reverse ++ rest))

/-- Models `depthFirstFindEvent`: return immediately when the target already
resolves in the tree, otherwise run the traversal loop from a stack holding
the root node. -/
def depthFirstFindEvent (f : Fetcher) (fuel : Nat) (targetId : String) (t : PTree) :
    Except Err (Option NDKEvent × PTree × List String) :=
  match getNodeKey t targetId with
  | some i => .ok ((t.arena.get? i).map (fun n => n.event), t, [])
  | none => dfLoop f targetId fuel t [0]

/-! ## Content reconstruction (src/src/lib/parser/pharos_utils.ts)

`getSectionContent` walks the subtree under a node of the publication
tree.  The subtree reachable through the node's children links is
modelled as the inductive `STree`.  Two pieces it relies on are not under
src/ and are modelled from the spec, as noted on `zettelKinds` and on the
`depth` argument. -/

inductive STree : Type where
  | mk (event : NDKEvent) (children : List STree)
deriving Repr

def STree.event : STree → NDKEvent
  | .mk e _ => e

def STree.children : STree → List STree
  | .mk _ cs => cs

/-- Modelled from the spec: `zettelKinds` is imported from `$lib/consts`,
which is not under src/; the spec classifies exactly the content-bearing
(leaf/zettel, kind 30041) units as leaves. -/
def zettelKinds : List Int := [30041]

/-- Models `rootNode.event.getMatchingTags('title')[0][1]`. -/
def eventTitle (e : NDKEvent) : String :=
  ((e.tags.filter (fun tag => tag.getD 0 "" == "title")).getD 0 []).getD 1 "undefined"

/-- The `titleLevel` loop: `for (i = 0; i <= depth; i++) titleLevel += '='`,
i.e. `depth + 1` marker characters. -/
def markerOf (depth : Nat) : String :=
  String.mk (List.replicate (depth + 1) '=')

/-- Models `getSectionContent`.  Modelled from the spec: the depth used for the
heading marker comes from `tree.getNodeDepth(root)`, which is not under
src/; per the spec it is the node's depth measured from the
whole-publication root, so it is threaded as the `depth` argument and each
child is rendered at `depth + 1`.  Emit the heading, then for a zettel
(leaf) kind the stored content, otherwise the recursively rendered
children in child order. -/
def getSectionContent (depth : Nat) : STree → String
  | .mk e cs =>
    let heading := markerOf depth ++ " " ++ eventTitle e ++ "\n\n"
    if zettelKinds.contains (e.kind.getD (-1)) then
      heading ++ e.content
    else
      heading ++ String.join (cs.attach.map (fun c => getSectionContent (depth + 1) c.1))
decreasing_by
  have := List.sizeOf_lt_of_mem c.2
  simp only [STree.mk.sizeOf_spec]
  omega

theorem getSectionContent_mk (depth : Nat) (e : NDKEvent) (cs : List STree) :
    getSectionContent depth (.mk e cs) =
      (markerOf depth ++ " " ++ eventTitle e ++ "\n\n") ++
        (if zettelKinds.contains (e.kind.getD (-1)) then e.content
         else String.join (cs.map (getSectionContent (depth + 1)))) := by
  rw [getSectionContent]
  rw [List.attach_map_val cs (getSectionContent (depth + 1))]
  by_cases h : (e.kind.getD (-1)) ∈ zettelKinds <;> simp [h]

/-! ## Concrete fixtures used by witnesses and counterexamples -/

/-- A non-replaceable root event with id `r`. -/
def cEvR : NDKEvent :=
  { id := "r", kind := some 1, pubkey := "p", tags := [["e", "a"], ["e", "b"]], content := "" }

def cEvA : NDKEvent :=
  { id := "a", kind := some 1, pubkey := "p", tags := [], content := "" }

def cEvB : NDKEvent :=
  { id := "b", kind := some 1, pubkey := "p", tags := [], content := "" }

/-- A leaf event titled `Intro` with content `Hello`. -/
def cIntro : NDKEvent :=
  { id := "x", kind := some 30041, pubkey := "p", tags := [["title", "Intro"]], content := "Hello" }

/-! ## C4 — reconstruction heading depth -/

/-- C4: for every node rendered by `getSectionContent`, the emitted heading
marker is `depth + 1` copies of `=` (depth measured from the
whole-publication root), followed by a space, the title and a blank line;
a leaf titled `Intro` with content `Hello` yields `"= Intro\n\nHello"` at
depth 0 and `"=== Intro\n\nHello"` at depth 2. -/
theorem c4_heading_depth :
    (∀ (depth : Nat) (e : NDKEvent) (cs : List STree),
      (markerOf depth).length = 1 + depth ∧
      ∃ rest, getSectionContent depth (.mk e cs) =
        markerOf depth ++ " " ++ eventTitle e ++ "\n\n" ++ rest) ∧
    getSectionContent 0 (.mk cIntro []) = "= Intro\n\nHello" ∧
    getSectionContent 2 (.mk cIntro []) = "=== Intro\n\nHello" := by
  refine ⟨fun depth e cs => ⟨?_, ?_⟩, ?_, ?_⟩
  · simp [markerOf, String.length]
    omega
  · exact ⟨_, getSectionContent_mk depth e cs⟩
  · rw [getSectionContent_mk]; decide
  · rw [getSectionContent_mk]; decide

/-! ## C5 — addNode with an unresolvable parent -/

/-- C5: for every tree and every parent key that does not resolve,
`PublicationTree.addNode` fails with the parent-not-found error and returns
the tree observably unchanged (both indices and all children lists are
exactly the input's). -/
theorem c5_parent_not_found (t : PTree) (e : NDKEvent) (k : PKey)
    (h : resolveKey t k = none) :
    pAddNode t e k = (.error (.parentNotFound (keyStr k)), t) := by
  simp [pAddNode, h]

theorem c5_parent_not_found_witness :
    pAddNode (mkPTree cEvR) cEvA (.str "nope") =
      (.error (.parentNotFound "nope"), mkPTree cEvR) :=
  c5_parent_not_found (mkPTree cEvR) cEvA (.str "nope") (by decide)

/-! ## C10 — duplicate-address insertion in the decomposer's tree -/

/-- Lemma: `generateAddress` never touches the `nodes` map. -/
theorem aGenFallback_nodes (st : AState) (b : ADoc) (addr : String) (st1 : AState)
    (h : aGenFallback st b = .ok (addr, st1)) : st1.nodes = st.nodes := by
  unfold aGenFallback at h
  split at h
  · cases h
  · cases h; rfl

theorem aGenTitleOrFallback_nodes (dec : String → String) (st : AState) (b : ADoc)
    (addr : String) (st1 : AState) (h : aGenTitleOrFallback dec st b = .ok (addr, st1)) :
    st1.nodes = st.nodes := by
  unfold aGenTitleOrFallback at h
  split at h
  · split at h
    · cases h; rfl
    · exact aGenFallback_nodes _ _ _ _ h
  · exact aGenFallback_nodes _ _ _ _ h

theorem aGenerateAddress_nodes (dec : String → String) (st : AState) (b : ADoc)
    (addr : String) (st1 : AState) (h : aGenerateAddress dec st b = .ok (addr, st1)) :
    st1.nodes = st.nodes := by
  unfold aGenerateAddress at h
  split at h
  · split at h
    · cases h; rfl
    · exact aGenTitleOrFallback_nodes _ _ _ _ _ h
  · exact aGenTitleOrFallback_nodes _ _ _ _ _ h

/-- C10: when the generated address is already a key of the decomposer
tree's node map, `AsciidoctorTree.addNode` returns without touching the
node map — so the intended parent's children list and the node originally
stored under that address are unchanged (the map holds every node and its
children list). -/
theorem c10_duplicate_noop (dec : String → String) (st : AState) (b : ADoc)
    (parentAddress addr : String) (st1 : AState)
    (hgen : aGenerateAddress dec st b = .ok (addr, st1))
    (hdup : (lookupBy st.nodes addr).isSome) :
    aAddNode dec st b parentAddress = .ok st1 ∧ st1.nodes = st.nodes := by
  have hn := aGenerateAddress_nodes dec st b addr st1 hgen
  constructor
  · unfold aAddNode
    rw [hgen]
    simp [hn, hdup]
  · exact hn

/-- Fixture for the C10 witness: a tree state already holding a node at
address `intro`, and a block titled `Intro` generating that same address. -/
def c10St : AState :=
  { AState.init "pk" with
      root := some "book",
      nodes := [("intro", { address := "intro", title := some "Old", children := ["k"] })] }

def c10Blk : ADoc := .mk 0 none (some "Intro") "paragraph" "body" []

theorem c10_duplicate_noop_witness :
    aAddNode (fun s => s) c10St c10Blk "book" = .ok c10St ∧ c10St.nodes = c10St.nodes :=
  c10_duplicate_noop (fun s => s) c10St c10Blk "book" "intro" c10St (by decide) (by decide)

/-! ## C2 — address precedence in the decomposer -/

/-- Fixture: a tree state whose root address has an a-tag shape, and a
paragraph block with neither id nor title. -/
def c2St : AState := { AState.init "pk" with root := some "30040:pk:mybook" }

def c2Blk : ADoc := .mk 0 none none "paragraph" "x" []

/-- C2 counterexample: the claim says the fallback address is
`{documentTag}-{contextName}-{counter}` (here `mybook-paragraph-0`), but
`generateAddress` returns it prefixed with the event kind and the pubkey:
`30041:pk:mybook-paragraph-0`. -/
theorem c2_counterexample :
    (aGenerateAddress (fun s => s) c2St c2Blk).toOption.map Prod.fst =
      some "30041:pk:mybook-paragraph-0" ∧
    ("30041:pk:mybook-paragraph-0" : String) ≠ "mybook-paragraph-0" := by
  decide

/-- C2 (amended): the address precedence of `generateAddress` is: the
normalized explicit id when non-empty; else the normalized title when
non-empty; else the fallback `{documentTag}-{contextName}-{counter}`
**prefixed with `{kind}:{pubkey}:`** (kind 30040 for sections, 30041
otherwise), where `documentTag` is the third colon-segment of the root
address (JS `"undefined"` when missing), `contextName` is the block's
structural-context label with underscores dashed (or `block` for an
unlisted context), and the counter for that context is incremented on each
use; the minted address is also written back to the block's id. -/
theorem c2_address_precedence (dec : String → String) (st : AState) (b : ADoc) :
    (∀ s, normalizeId dec (getId st b) = some s → s.length > 0 →
      aGenerateAddress dec st b = .ok (s, st)) ∧
    ((normalizeId dec (getId st b)).getD "" = "" →
      ∀ s, normalizeId dec b.title = some s → s.length > 0 →
        aGenerateAddress dec st b = .ok (s, st)) ∧
    ((normalizeId dec (getId st b)).getD "" = "" →
      (normalizeId dec b.title).getD "" = "" →
      ∀ r, st.root = some r →
        ∃ st1, aGenerateAddress dec st b =
          .ok ((if b.context = "section" then "30040:" else "30041:") ++ st.pubkey ++ ":" ++
            ((splitColon r).getD 2 "undefined" ++ "-" ++
              (if knownContexts.contains b.context then dashify b.context else "block") ++ "-" ++
              toString ((lookupBy st.contextCounters
                (if knownContexts.contains b.context then b.context else "block")).getD 0)),
            st1) ∧
          lookupBy st1.contextCounters
              (if knownContexts.contains b.context then b.context else "block") =
            some ((lookupBy st.contextCounters
              (if knownContexts.contains b.context then b.context else "block")).getD 0 + 1) ∧
          lookupBy st1.idOverrides b.lbl =
            some ((if b.context = "section" then "30040:" else "30041:") ++ st.pubkey ++ ":" ++
              ((splitColon r).getD 2 "undefined" ++ "-" ++
                (if knownContexts.contains b.context then dashify b.context else "block") ++ "-" ++
                toString ((lookupBy st.contextCounters
                  (if knownContexts.contains b.context then b.context else "block")).getD 0)))) := by
  refine ⟨?_, ?_, ?_⟩
  · intro s hs hlen
    unfold aGenerateAddress
    rw [hs]
    simp [hlen]
  · intro hid s hs hlen
    unfold aGenerateAddress aGenTitleOrFallback
    cases hm : normalizeId dec (getId st b) with
    | none =>
      rw [hs]
      simp [hlen]
    | some s0 =>
      rw [hm] at hid
      have hs0 : s0 = "" := hid
      subst hs0
      rw [hs]
      simp [hlen]
  · intro hid htitle r hroot
    have hfb : aGenerateAddress dec st b = aGenFallback st b := by
      unfold aGenerateAddress aGenTitleOrFallback
      cases hm : normalizeId dec (getId st b) with
      | none =>
        cases hm2 : normalizeId dec b.title with
        | none => rfl
        | some s1 =>
          rw [hm2] at htitle
          have : s1 = "" := htitle
          subst this
          simp
      | some s0 =>
        rw [hm] at hid
        have : s0 = "" := hid
        subst this
        cases hm2 : normalizeId dec b.title with
        | none => simp
        | some s1 =>
          rw [hm2] at htitle
          have : s1 = "" := htitle
          subst this
          simp
    rw [hfb]
    unfold aGenFallback
    rw [hroot]
    refine ⟨_, rfl, ?_, ?_⟩
    · exact lookupBy_setBy_self _ _ _
    · exact lookupBy_setBy_self _ _ _

/-- Fixture for the C2 witness: a block with explicit id `My_Id`. -/
def c2WBlk : ADoc := .mk 5 (some "My_Id") none "paragraph" "" []

theorem c2_address_precedence_witness :
    aGenerateAddress (fun s => s) (AState.init "pk") c2WBlk = .ok ("my-id", AState.init "pk") :=
  (c2_address_precedence (fun s => s) (AState.init "pk") c2WBlk).1 "my-id" (by decide) (by decide)

/-! ## C3 — stack push order in the resolver's traversal loop -/

/-- Fetcher resolving ids `a` and `b` to the leaf events `cEvA`, `cEvB`. -/
def c3F : Fetcher :=
  { fetchId := fun s => if s = "a" then some cEvA else if s = "b" then some cEvB else none,
    fetchAddr := fun _ _ _ => none }

/-- C3 counterexample: the root `r` declares children `a` then `b` in
document order, yet the loop visits `r, b, a` — the children are visited
right-to-left, not left-to-right as the claim states, because
`stack.push(...children)` pushes them in document order rather than in
reverse. -/
theorem c3_counterexample :
    (depthFirstFindEvent c3F 10 "zzz" (mkPTree cEvR)).toOption.map (fun r => r.2.2) =
      some ["r", "b", "a"] ∧
    (["r", "b", "a"] : List String) ≠ ["r", "a", "b"] := by
  decide

/-- C3 (amended): after a popped node's fetch round, its children are
pushed onto the work stack in document order (`stack.push(...children)`,
i.e. the reversed children list is prepended in the head-is-top model), so
under last-in-first-out popping the next node visited is the LAST child:
the children are visited in reverse (right-to-left) document order. -/
theorem c3_push_order (f : Fetcher) (tgt : String) (fuel : Nat) (t : PTree) (i : Nat)
    (rest : List Nat) (cur : PNode) (t' : PTree)
    (hget : t.arena.get? i = some cur)
    (hne : (childAddresses cur.event).isEmpty = false)
    (hfr : fetchRound f t cur = .ok t')
    (htgt : getNodeKey t' tgt = none) :
    dfLoop f tgt (fuel + 1) t (i :: rest) =
      traceCons cur.event.id
        (dfLoop f tgt fuel t' ((pGetChildren t' cur.event.id).reverse ++ rest)) ∧
    ∀ cs c, pGetChildren t' cur.event.id = cs ++ [c] →
      ((pGetChildren t' cur.event.id).reverse ++ rest).head? = some c := by
  constructor
  · simp only [dfLoop]
    rw [hget]
    simp only [hne, Bool.false_eq_true, if_false]
    rw [hfr]
    simp only [htgt]
  · intro cs c h
    rw [h]
    simp

/-- The popped root node of `mkPTree cEvR` at the time of the pop. -/
def cRoot0 : PNode := { event := cEvR, parent := none, children := [] }

/-- The tree after the root's fetch round inserted `a` (index 1) and `b`
(index 2). -/
def c3T1 : PTree :=
  { arena := [{ event := cEvR, parent := none, children := [1, 2] },
              { event := cEvA, parent := some 0, children := [] },
              { event := cEvB, parent := some 0, children := [] }],
    byId := [("r", 0), ("a", 1), ("b", 2)],
    byAddr := [] }

theorem c3_push_order_witness :
    ((pGetChildren c3T1 cRoot0.event.id).reverse ++ ([] : List Nat)).head? = some 2 :=
  (c3_push_order c3F "zzz" 9 (mkPTree cEvR) 0 [] cRoot0 c3T1 (by decide) (by decide)
    (by decide) (by decide)).2 [1] 2 (by decide)

/-! ## C7 — a malformed reference aborts the whole resolution -/

/-- A reference with an unsupported shape makes its dispatch throw the
unsupported-format error. -/
theorem dispatchFetch_malformed (f : Fetcher) (a : String)
    (h : wellFormedAddr a = false) :
    dispatchFetch f a = .error (.invalidAddress a) := by
  unfold dispatchFetch
  split
  · rename_i heq
    simp [wellFormedAddr, heq] at h
  · rename_i heq
    simp [wellFormedAddr, heq] at h
  · rename_i heq
    simp [wellFormedAddr, heq] at h
  · rfl

/-- A dispatch can only fail with the unsupported-format error. -/
theorem dispatchFetch_error_form (f : Fetcher) (a : String) (e : Err)
    (h : dispatchFetch f a = .error e) : e = .invalidAddress a := by
  unfold dispatchFetch at h
  split at h
  · cases h
  · cases h
  · cases h
  · cases h; rfl

/-- A batch containing a malformed reference fails with an
unsupported-format error. -/
theorem fetchEventsByAddresses_malformed (f : Fetcher) :
    ∀ l : List String, (∃ a ∈ l, wellFormedAddr a = false) →
      ∃ a', fetchEventsByAddresses f l = .error (.invalidAddress a') := by
  intro l
  induction l with
  | nil => rintro ⟨a, ha, -⟩; cases ha
  | cons a rest ih =>
    rintro ⟨x, hx, hwf⟩
    rcases List.mem_cons.mp hx with hxa | hxr
    · subst hxa
      refine ⟨x, ?_⟩
      unfold fetchEventsByAddresses
      rw [dispatchFetch_malformed f x hwf]
    · cases hd : dispatchFetch f a with
      | error e =>
        refine ⟨a, ?_⟩
        unfold fetchEventsByAddresses
        rw [hd, dispatchFetch_error_form f a e hd]
      | ok r =>
        obtain ⟨a', he⟩ := ih ⟨x, hxr, hwf⟩
        refine ⟨a', ?_⟩
        unfold fetchEventsByAddresses
        rw [hd, he]

/-- C7: a reference whose address has an unsupported shape (not 1, 2 or 3
colon-separated segments) among a round's unfetched references makes the
fetch round fail with the unsupported-format (InvalidAddress) error; a
failed round makes the traversal loop return that error, aborting the
whole resolution rather than skipping the reference; and when the target
is not already present, `depthFirstFindEvent` is exactly that loop. -/
theorem c7_invalid_address_aborts (f : Fetcher) (tgt : String) :
    (∀ (t : PTree) (cur : PNode),
      (∃ a ∈ (childAddresses cur.event).filter (fun x => (getNodeKey t x).isNone),
        wellFormedAddr a = false) →
      ∃ a', fetchRound f t cur = .error (.invalidAddress a')) ∧
    (∀ (fuel : Nat) (t : PTree) (i : Nat) (rest : List Nat) (cur : PNode) (err : Err),
      t.arena.get? i = some cur →
      (childAddresses cur.event).isEmpty = false →
      fetchRound f t cur = .error err →
      dfLoop f tgt (fuel + 1) t (i :: rest) = .error err) ∧
    (∀ (fuel : Nat) (t : PTree), getNodeKey t tgt = none →
      depthFirstFindEvent f fuel tgt t = dfLoop f tgt fuel t [0]) := by
  refine ⟨?_, ?_, ?_⟩
  · intro t cur hmal
    obtain ⟨a', he⟩ := fetchEventsByAddresses_malformed f _ hmal
    refine ⟨a', ?_⟩
    simp only [fetchRound]
    rw [he]
  · intro fuel t i rest cur err hget hne hfr
    simp only [dfLoop]
    rw [hget]
    simp only [hne, Bool.false_eq_true, if_false]
    rw [hfr]
  · intro fuel t h
    unfold depthFirstFindEvent
    rw [h]

/-- Fixture: a root whose single `a`-tag reference has four colon
segments. -/
def cEvBad : NDKEvent :=
  { id := "r", kind := some 1, pubkey := "p", tags := [["a", "1:2:3:4"]], content := "" }

def cBad0 : PNode := { event := cEvBad, parent := none, children := [] }

theorem c7_invalid_address_aborts_witness :
    depthFirstFindEvent c3F 10 "zzz" (mkPTree cEvBad) = .error (.invalidAddress "1:2:3:4") := by
  rw [(c7_invalid_address_aborts c3F "zzz").2.2 10 (mkPTree cEvBad) (by decide)]
  exact (c7_invalid_address_aborts c3F "zzz").2.1 9 (mkPTree cEvBad) 0 [] cBad0
    (.invalidAddress "1:2:3:4") (by decide) (by decide) (by decide)

/-! ## C8 — individual fetch failures are tolerated within a round -/

/-- The value a single well-formed reference fetches: the same dispatch as
`fetchEventsByAddresses`, as a pure function of the fetcher. -/
def dispatchPure (f : Fetcher) (address : String) : Option NDKEvent :=
  match splitColon address with
  | [i] => f.fetchId i
  | [kind, pubkey] => f.fetchAddr kind pubkey none
  | [kind, pubkey, dTag] => f.fetchAddr kind pubkey (some dTag)
  | _ => none

theorem dispatchFetch_wf (f : Fetcher) (a : String) (h : wellFormedAddr a = true) :
    dispatchFetch f a = .ok (dispatchPure f a) := by
  unfold dispatchFetch
  split
  · rename_i heq; simp [dispatchPure, heq]
  · rename_i heq; simp [dispatchPure, heq]
  · rename_i heq; simp [dispatchPure, heq]
  · rename_i hn1 hn2 hn3
    exfalso
    unfold wellFormedAddr at h
    split at h
    · rename_i heq2; exact hn1 _ heq2
    · rename_i heq2; exact hn2 _ _ heq2
    · rename_i heq2; exact hn3 _ _ _ heq2
    · cases h

theorem fetchEventsByAddresses_all_wf (f : Fetcher) :
    ∀ l : List String, (∀ a ∈ l, wellFormedAddr a = true) →
      fetchEventsByAddresses f l = .ok (l.map (dispatchPure f)) := by
  intro l
  induction l with
  | nil => intro _; rfl
  | cons a rest ih =>
    intro h
    unfold fetchEventsByAddresses
    rw [dispatchFetch_wf f a (h a (List.mem_cons_self a rest)),
      ih (fun x hx => h x (List.mem_cons_of_mem a hx))]
    rfl

theorem pAddNode_fst_ok (t : PTree) (e : NDKEvent) (k : PKey) (pidx : Nat)
    (h : resolveKey t k = some pidx) : (pAddNode t e k).1 = .ok () := by
  simp [pAddNode, h]

theorem pAddNode_snd_byId (t : PTree) (e : NDKEvent) (k : PKey) (pidx : Nat)
    (h : resolveKey t k = some pidx) :
    ((pAddNode t e k).2).byId = setBy t.byId e.id t.arena.length := by
  simp [pAddNode, h]

theorem pAddNode_snd_byAddr_some (t : PTree) (e : NDKEvent) (k : PKey) (pidx : Nat)
    (a : String) (h : resolveKey t k = some pidx) (ha : eventAddress e = some a) :
    ((pAddNode t e k).2).byAddr = setBy t.byAddr a t.arena.length := by
  simp [pAddNode, h, ha]

theorem pAddNode_snd_byAddr_none (t : PTree) (e : NDKEvent) (k : PKey) (pidx : Nat)
    (h : resolveKey t k = some pidx) (ha : eventAddress e = none) :
    ((pAddNode t e k).2).byAddr = t.byAddr := by
  simp [pAddNode, h, ha]

theorem getNodeKey_eq_none_iff (t : PTree) (s : String) :
    getNodeKey t s = none ↔ lookupBy t.byId s = none ∧ lookupBy t.byAddr s = none := by
  unfold getNodeKey
  cases lookupBy t.byId s <;> simp

/-- A successful insertion preserves resolvability of every key. -/
theorem pAddNode_getNodeKey_mono (t : PTree) (e : NDKEvent) (k : PKey) (pidx : Nat)
    (s : String) (h : resolveKey t k = some pidx) (hs : (getNodeKey t s).isSome) :
    (getNodeKey ((pAddNode t e k).2) s).isSome := by
  unfold getNodeKey at hs ⊢
  rw [pAddNode_snd_byId t e k pidx h]
  cases h1 : lookupBy (setBy t.byId e.id t.arena.length) s with
  | some v => simp
  | none =>
    have hid : lookupBy t.byId s = none := by
      cases h2 : lookupBy t.byId s with
      | none => rfl
      | some w =>
        have := lookupBy_setBy_isSome t.byId e.id s t.arena.length (by rw [h2]; rfl)
        rw [h1] at this
        cases this
    rw [hid] at hs
    simp only []
    cases ha : eventAddress e with
    | some a =>
      rw [pAddNode_snd_byAddr_some t e k pidx a h ha]
      exact lookupBy_setBy_isSome _ _ _ _ hs
    | none =>
      rw [pAddNode_snd_byAddr_none t e k pidx h ha]
      exact hs

theorem pAddNode_byId_mono (t : PTree) (e : NDKEvent) (k : PKey) (pidx : Nat) (s : String)
    (h : resolveKey t k = some pidx) (hs : (lookupBy t.byId s).isSome) :
    (lookupBy ((pAddNode t e k).2).byId s).isSome := by
  rw [pAddNode_snd_byId t e k pidx h]
  exact lookupBy_setBy_isSome _ _ _ _ hs

theorem pAddNode_byId_self (t : PTree) (e : NDKEvent) (k : PKey) (pidx : Nat)
    (h : resolveKey t k = some pidx) :
    (lookupBy ((pAddNode t e k).2).byId e.id).isSome := by
  rw [pAddNode_snd_byId t e k pidx h, lookupBy_setBy_self]
  rfl

/-- A successful insertion of an event with fresh keys keeps an absent key
absent. -/
theorem pAddNode_absent (t : PTree) (e : NDKEvent) (k : PKey) (pidx : Nat) (a : String)
    (h : resolveKey t k = some pidx) (ha : getNodeKey t a = none) (hne1 : e.id ≠ a)
    (hne2 : eventAddress e ≠ some a) :
    getNodeKey ((pAddNode t e k).2) a = none := by
  obtain ⟨haid, haaddr⟩ := (getNodeKey_eq_none_iff t a).mp ha
  apply (getNodeKey_eq_none_iff _ a).mpr
  constructor
  · rw [pAddNode_snd_byId t e k pidx h,
      lookupBy_setBy_other _ _ _ _ (fun hc => hne1 hc.symm)]
    exact haid
  · cases he : eventAddress e with
    | some a0 =>
      have hne3 : a ≠ a0 := by
        intro hc
        exact hne2 (by rw [he, hc])
      rw [pAddNode_snd_byAddr_some t e k pidx a0 h he,
        lookupBy_setBy_other _ _ _ _ hne3]
      exact haaddr
    | none =>
      rw [pAddNode_snd_byAddr_none t e k pidx h he]
      exact haaddr

/-- The `forEach` insertion of a fetch round: it succeeds when the parent
resolves, keeps every id key, registers every fetched event's id and keeps
keys absent that no fetched event carries. -/
theorem insertFetched_props (pid : String) :
    ∀ (evs : List (Option NDKEvent)) (t : PTree), (getNodeKey t pid).isSome →
      ∃ t', insertFetched t pid evs = .ok t' ∧
        (∀ s, (lookupBy t.byId s).isSome → (lookupBy t'.byId s).isSome) ∧
        (∀ e : NDKEvent, some e ∈ evs → (lookupBy t'.byId e.id).isSome) ∧
        (∀ a, getNodeKey t a = none →
          (∀ e : NDKEvent, some e ∈ evs → e.id ≠ a ∧ eventAddress e ≠ some a) →
          getNodeKey t' a = none) := by
  intro evs
  induction evs with
  | nil =>
    intro t ht
    exact ⟨t, rfl, fun _ hs => hs, by simp, fun _ ha _ => ha⟩
  | cons ev rest ih =>
    intro t ht
    cases ev with
    | none =>
      obtain ⟨t', h1, h2, h3, h4⟩ := ih t ht
      refine ⟨t', by simpa [insertFetched] using h1, h2, ?_, ?_⟩
      · intro e he
        apply h3
        rcases List.mem_cons.mp he with heq | hr
        · cases heq
        · exact hr
      · intro a ha hno
        exact h4 a ha (fun e he => hno e (List.mem_cons_of_mem _ he))
    | some e0 =>
      obtain ⟨pidx, hres⟩ : ∃ pidx, resolveKey t (.str pid) = some pidx := by
        have : resolveKey t (.str pid) = getNodeKey t pid := rfl
        rw [this]
        exact Option.isSome_iff_exists.mp ht
      have hpair : pAddNode t e0 (.str pid) = (.ok (), (pAddNode t e0 (.str pid)).2) := by
        have h1 := pAddNode_fst_ok t e0 (.str pid) pidx hres
        exact Prod.ext h1 rfl
      have ht1 : (getNodeKey ((pAddNode t e0 (.str pid)).2) pid).isSome :=
        pAddNode_getNodeKey_mono t e0 (.str pid) pidx pid hres ht
      obtain ⟨t', h1, h2, h3, h4⟩ := ih ((pAddNode t e0 (.str pid)).2) ht1
      refine ⟨t', ?_, ?_, ?_, ?_⟩
      · simp only [insertFetched]
        rw [hpair]
        exact h1
      · intro s hs
        exact h2 s (pAddNode_byId_mono t e0 (.str pid) pidx s hres hs)
      · intro e he
        rcases List.mem_cons.mp he with heq | hr
        · have he0 : e = e0 := by injection heq
          rw [he0]
          exact h2 _ (pAddNode_byId_self t e0 (.str pid) pidx hres)
        · exact h3 e hr
      · intro a ha hno
        obtain ⟨hn1, hn2⟩ := hno e0 (List.mem_cons_self _ _)
        have ha1 := pAddNode_absent t e0 (.str pid) pidx a hres ha hn1 hn2
        exact h4 a ha1 (fun e he => hno e (List.mem_cons_of_mem _ he))

/-- C8: in a round whose unfetched references are all well-formed and whose
popped node resolves in the tree: the batch dispatches each reference
exactly once, independently (so a failed reference simply yields `none`,
with no retry); the round completes without error; every fetched event is
inserted (its id resolves afterwards); and a reference whose fetch failed
is still absent afterwards, provided no fetched event carries it as id or
address. -/
theorem c8_partial_failure (f : Fetcher) (t : PTree) (cur : PNode)
    (hwf : ∀ a ∈ (childAddresses cur.event).filter (fun x => (getNodeKey t x).isNone),
      wellFormedAddr a = true)
    (hpar : (getNodeKey t cur.event.id).isSome) :
    fetchEventsByAddresses f
        ((childAddresses cur.event).filter (fun x => (getNodeKey t x).isNone)) =
      .ok (((childAddresses cur.event).filter (fun x => (getNodeKey t x).isNone)).map
        (dispatchPure f)) ∧
    (fetchRound f t cur).isOk = true ∧
    (∀ t', fetchRound f t cur = .ok t' →
      (∀ a ∈ (childAddresses cur.event).filter (fun x => (getNodeKey t x).isNone),
        ∀ e : NDKEvent, dispatchPure f a = some e → (lookupBy t'.byId e.id).isSome) ∧
      (∀ a ∈ (childAddresses cur.event).filter (fun x => (getNodeKey t x).isNone),
        dispatchPure f a = none →
        (∀ b ∈ (childAddresses cur.event).filter (fun x => (getNodeKey t x).isNone),
          ∀ e : NDKEvent, dispatchPure f b = some e → e.id ≠ a ∧ eventAddress e ≠ some a) →
        getNodeKey t' a = none)) := by
  have hfe := fetchEventsByAddresses_all_wf f
    ((childAddresses cur.event).filter (fun x => (getNodeKey t x).isNone)) hwf
  have hfr : fetchRound f t cur = insertFetched t cur.event.id
      (((childAddresses cur.event).filter (fun x => (getNodeKey t x).isNone)).map
        (dispatchPure f)) := by
    simp only [fetchRound]
    rw [hfe]
  obtain ⟨t0, h1, h2, h3, h4⟩ := insertFetched_props cur.event.id
    (((childAddresses cur.event).filter (fun x => (getNodeKey t x).isNone)).map
      (dispatchPure f)) t hpar
  refine ⟨hfe, ?_, ?_⟩
  · rw [hfr, h1]; rfl
  · intro t' ht'
    rw [hfr, h1] at ht'
    have heq : t0 = t' := by injection ht'
    subst heq
    constructor
    · intro a ha e hde
      exact h3 e (List.mem_map.mpr ⟨a, ha, by rw [hde]⟩)
    · intro a ha hde hno
      have haN : getNodeKey t a = none := by
        have := List.of_mem_filter ha
        simpa [Option.isNone_iff_eq_none] using this
      apply h4 a haN
      intro e he
      obtain ⟨b, hb, hbe⟩ := List.mem_map.mp he
      exact hno b hb e hbe

/-- Fetcher for the C8 witness: `a` resolves, `b` fails. -/
def c8F : Fetcher :=
  { fetchId := fun s => if s = "a" then some cEvA else none,
    fetchAddr := fun _ _ _ => none }

/-- The tree after the C8 witness round: only `a` was inserted. -/
def c8T1 : PTree :=
  { arena := [{ event := cEvR, parent := none, children := [1] },
              { event := cEvA, parent := some 0, children := [] }],
    byId := [("r", 0), ("a", 1)],
    byAddr := [] }

theorem c8_partial_failure_witness :
    (fetchRound c8F (mkPTree cEvR) cRoot0).isOk = true ∧
    (lookupBy c8T1.byId "a").isSome = true ∧
    getNodeKey c8T1 "b" = none := by
  have h := c8_partial_failure c8F (mkPTree cEvR) cRoot0 (by decide) (by decide)
  refine ⟨h.2.1, ?_, ?_⟩
  · exact (h.2.2 c8T1 (by decide)).1 "a" (by decide) cEvA (by decide)
  · apply (h.2.2 c8T1 (by decide)).2 "b" (by decide) (by decide)
    intro b hb e he
    have hb2 : b = "a" ∨ b = "b" := by
      have e1 : (childAddresses cRoot0.event).filter
          (fun x => (getNodeKey (mkPTree cEvR) x).isNone) = ["a", "b"] := by decide
      rw [e1] at hb
      simpa using hb
    rcases hb2 with hb2 | hb2
    · subst hb2
      have he2 : dispatchPure c8F "a" = some cEvA := by decide
      rw [he2] at he
      obtain rfl : cEvA = e := Option.some.inj he
      exact ⟨by decide, by decide⟩
    · subst hb2
      have he2 : dispatchPure c8F "b" = none := by decide
      rw [he2] at he
      cases he

/-! ## C6 — the id index and the address index -/

/-- A root event with no tags and a non-replaceable kind (no address). -/
def cEvRoot : NDKEvent := { id := "r", kind := some 1, pubkey := "p", tags := [], content := "" }

/-- Two distinct parameterized-replaceable events sharing kind, pubkey and
`d` tag — hence sharing one address. -/
def cE1 : NDKEvent :=
  { id := "a", kind := some 30040, pubkey := "p", tags := [["d", "d1"]], content := "" }

def cE2 : NDKEvent :=
  { id := "b", kind := some 30040, pubkey := "p", tags := [["d", "d1"]], content := "" }

def c6T : PTree := (pAddNode (pAddNode (mkPTree cEvRoot) cE1 (.str "r")).2 cE2 (.str "r")).2

/-- C6 counterexample: `cE1` is inserted with id `a` and derivable address
`30040:p:d1`; inserting `cE2` (a second version of the same replaceable
coordinates) overwrites the address entry, after which `getNode` on
`cE1`'s id and on `cE1`'s address return different nodes (arena indices 1
and 2), so the indices map the shared key to different nodes. -/
theorem c6_counterexample :
    eventAddress cE1 = some "30040:p:d1" ∧
    (pAddNode (mkPTree cEvRoot) cE1 (.str "r")).1 = .ok () ∧
    (pAddNode (pAddNode (mkPTree cEvRoot) cE1 (.str "r")).2 cE2 (.str "r")).1 = .ok () ∧
    getNodeKey c6T cE1.id = some 1 ∧
    getNodeKey c6T "30040:p:d1" = some 2 ∧
    (1 : Nat) ≠ 2 := by
  decide

/-- The two lookup indices never map a common key to different arena
nodes. -/
def indicesAgree (t : PTree) : Prop :=
  ∀ k i j, lookupBy t.byId k = some i → lookupBy t.byAddr k = some j → i = j

theorem pAddNode_snd_arena (t : PTree) (e : NDKEvent) (k : PKey) (pidx : Nat)
    (h : resolveKey t k = some pidx) :
    ((pAddNode t e k).2).arena =
      listUpd (t.arena ++ [{ event := e, parent := some pidx, children := [] }]) pidx
        (fun nd => { nd with children := nd.children ++ [t.arena.length] }) := by
  simp [pAddNode, h]

/-- C6 (amended): a node inserted with both an id and a derivable address
is reachable by either key — both lookups return the newly created node —
provided its keys are fresh (the address is not an existing id key nor the
event's own id, and the id is not an existing address key); and an
insertion with such fresh keys preserves the invariant that the two
indices never map a common key to different nodes.  (Without freshness the
indices can disagree — see the counterexample, where two versions of one
replaceable event share an address.) -/
theorem c6_dual_index (t : PTree) (e : NDKEvent) (k : PKey) (pidx : Nat) (a : String)
    (hres : resolveKey t k = some pidx)
    (ha : eventAddress e = some a)
    (hfresh1 : a ≠ e.id)
    (hfresh2 : lookupBy t.byId a = none)
    (hfresh3 : lookupBy t.byAddr e.id = none) :
    (pAddNode t e k).1 = .ok () ∧
    getNodeKey ((pAddNode t e k).2) e.id = some t.arena.length ∧
    getNodeKey ((pAddNode t e k).2) a = some t.arena.length ∧
    (indicesAgree t → indicesAgree ((pAddNode t e k).2)) := by
  have hid := pAddNode_snd_byId t e k pidx hres
  have haddr := pAddNode_snd_byAddr_some t e k pidx a hres ha
  refine ⟨pAddNode_fst_ok t e k pidx hres, ?_, ?_, ?_⟩
  · unfold getNodeKey
    rw [hid, lookupBy_setBy_self]
  · unfold getNodeKey
    rw [hid, lookupBy_setBy_other _ _ _ _ hfresh1, hfresh2, haddr, lookupBy_setBy_self]
  · intro hag k' i j hi hj
    rw [hid] at hi
    rw [haddr] at hj
    by_cases hk1 : k' = e.id
    · subst hk1
      rw [lookupBy_setBy_other _ _ _ _ (fun hc => hfresh1 hc.symm)] at hj
      rw [hfresh3] at hj
      cases hj
    · rw [lookupBy_setBy_other _ _ _ _ hk1] at hi
      by_cases hk2 : k' = a
      · subst hk2
        rw [hfresh2] at hi
        cases hi
      · rw [lookupBy_setBy_other _ _ _ _ hk2] at hj
        exact hag k' i j hi hj

theorem c6_dual_index_witness :
    (pAddNode (mkPTree cEvRoot) cE1 (.str "r")).1 = .ok () ∧
    getNodeKey ((pAddNode (mkPTree cEvRoot) cE1 (.str "r")).2) cE1.id = some 1 ∧
    getNodeKey ((pAddNode (mkPTree cEvRoot) cE1 (.str "r")).2) "30040:p:d1" = some 1 := by
  have h := c6_dual_index (mkPTree cEvRoot) cE1 (.str "r") 0 "30040:p:d1"
    (by decide) (by decide) (by decide) (by decide) (by decide)
  exact ⟨h.1, h.2.1, h.2.2.1⟩

/-! ## C9 — links after a successful insertion -/

/-- C9 counterexample: inserting under the root an event carrying the
root's own id succeeds, but afterwards `getChildren(p)` resolves the id to
the newly inserted node (the id entry was overwritten), whose children
list is empty — so the inserted node is not an element of
`getChildren(p)`, contradicting the claim's universal statement. -/
theorem c9_counterexample :
    (pAddNode (mkPTree cEvRoot) cEvRoot (.evt cEvRoot)).1 = .ok () ∧
    ((pAddNode (mkPTree cEvRoot) cEvRoot (.evt cEvRoot)).2).arena.length = 2 ∧
    pGetChildren ((pAddNode (mkPTree cEvRoot) cEvRoot (.evt cEvRoot)).2) cEvRoot.id = [] ∧
    ¬ (1 ∈ pGetChildren ((pAddNode (mkPTree cEvRoot) cEvRoot (.evt cEvRoot)).2) cEvRoot.id) := by
  decide

theorem lookupBy_mem {κ α : Type} [DecidableEq κ] (m : List (κ × α)) (k : κ) (v : α)
    (h : lookupBy m k = some v) : (k, v) ∈ m := by
  induction m with
  | nil => cases h
  | cons p rest ih =>
    by_cases hp : p.1 = k
    · rw [lookupBy, if_pos hp] at h
      have hv : p.2 = v := by injection h
      have hkv : p = (k, v) := Prod.ext hp hv
      rw [hkv]
      exact List.mem_cons_self _ _
    · rw [lookupBy, if_neg hp] at h
      exact List.mem_cons_of_mem _ (ih h)

/-- The well-formedness a `PublicationTree` built through the constructor
and `addNode` always has: children indices are in range, every arena
node's event id is a key of the id index, and the id index points into the
arena. -/
def PTreeWF (t : PTree) : Prop :=
  (∀ n ∈ t.arena, ∀ c ∈ n.children, c < t.arena.length) ∧
  (∀ n ∈ t.arena, (lookupBy t.byId n.event.id).isSome) ∧
  (∀ p ∈ t.byId, p.2 < t.arena.length)

/-- C9 (amended): for every well-formed tree, parent `p` in the tree and
event `e` whose id is fresh (no id-index entry), after `addNode(e, p)`
succeeds: `getParent(e)` is `p`'s node, `getChildren(p)` is its old value
with the new node appended (so the new node is an element), and
`getSiblings(e)` equals `getChildren(p)` minus the new node.  (Without the
freshness proviso the claim fails — see the counterexample.) -/
theorem c9_insert_links (t : PTree) (e : NDKEvent) (p : NDKEvent) (pidx : Nat)
    (hwf : PTreeWF t)
    (hp : lookupBy t.byId p.id = some pidx)
    (hfresh : lookupBy t.byId e.id = none) :
    (pAddNode t e (.evt p)).1 = .ok () ∧
    pGetParent ((pAddNode t e (.evt p)).2) e.id = some pidx ∧
    pGetChildren ((pAddNode t e (.evt p)).2) p.id = pGetChildren t p.id ++ [t.arena.length] ∧
    pGetSiblings ((pAddNode t e (.evt p)).2) e.id = pGetChildren t p.id := by
  obtain ⟨hwfC, hwfI, hwfB⟩ := hwf
  have hres : resolveKey t (.evt p) = some pidx := by
    show getNodeKey t p.id = some pidx
    unfold getNodeKey
    rw [hp]
  have hpidx : pidx < t.arena.length := hwfB _ (lookupBy_mem _ _ _ hp)
  have hne_pid : p.id ≠ e.id := by
    intro hc
    rw [hc, hfresh] at hp
    cases hp
  obtain ⟨pn, hpn⟩ : ∃ pn, t.arena.get? pidx = some pn := by
    cases hg : t.arena.get? pidx with
    | none =>
      have := List.get?_eq_none.mp hg
      omega
    | some pn => exact ⟨pn, rfl⟩
  have hpmem : pn ∈ t.arena := List.get?_mem hpn
  have hid := pAddNode_snd_byId t e (.evt p) pidx hres
  have harena := pAddNode_snd_arena t e (.evt p) pidx hres
  have hlen : t.arena.length ≠ pidx := by omega
  -- the freshly created node sits at index `t.arena.length`
  have hnew : ((pAddNode t e (.evt p)).2).arena.get? t.arena.length =
      some { event := e, parent := some pidx, children := [] } := by
    rw [harena, listUpd_get_other _ _ _ _ hlen, List.get?_concat_length]
  -- the parent node at `pidx` got the new index appended
  have hpar : ((pAddNode t e (.evt p)).2).arena.get? pidx =
      some { pn with children := pn.children ++ [t.arena.length] } := by
    rw [harena, listUpd_get_self, List.get?_append hpidx, hpn]
    rfl
  -- getNodeKey lookups after the insertion
  have hkey_e : getNodeKey ((pAddNode t e (.evt p)).2) e.id = some t.arena.length := by
    unfold getNodeKey
    rw [hid, lookupBy_setBy_self]
  have hkey_p : getNodeKey ((pAddNode t e (.evt p)).2) p.id = some pidx := by
    unfold getNodeKey
    rw [hid, lookupBy_setBy_other _ _ _ _ hne_pid, hp]
  have hkey_p_old : getNodeKey t p.id = some pidx := by
    unfold getNodeKey
    rw [hp]
  -- arena entries other than `pidx` and the new index are untouched
  have hother : ∀ c, c < t.arena.length → c ≠ pidx →
      ((pAddNode t e (.evt p)).2).arena.get? c = t.arena.get? c := by
    intro c hc hcp
    rw [harena, listUpd_get_other _ _ _ _ hcp, List.get?_append hc]
  -- any old arena index holds an event whose id differs from `e.id`
  have hid_ne : ∀ c, c ∈ pn.children → childEventId ((pAddNode t e (.evt p)).2) c ≠ e.id := by
    intro c hc
    have hclt : c < t.arena.length := hwfC pn hpmem c hc
    by_cases hcp : c = pidx
    · subst hcp
      unfold childEventId
      rw [hpar]
      intro hcontra
      have := hwfI pn hpmem
      rw [show pn.event.id = e.id from hcontra] at this
      rw [hfresh] at this
      cases this
    · obtain ⟨nc, hnc⟩ : ∃ nc, t.arena.get? c = some nc := by
        cases hg : t.arena.get? c with
        | none =>
          have := List.get?_eq_none.mp hg
          omega
        | some nc => exact ⟨nc, rfl⟩
      unfold childEventId
      rw [hother c hclt hcp, hnc]
      intro hcontra
      have := hwfI nc (List.get?_mem hnc)
      rw [show nc.event.id = e.id from hcontra] at this
      rw [hfresh] at this
      cases this
  refine ⟨pAddNode_fst_ok t e (.evt p) pidx hres, ?_, ?_, ?_⟩
  · unfold pGetParent
    simp only [hkey_e, Option.some_bind, hnew]
  · unfold pGetChildren
    simp only [hkey_p, hkey_p_old, Option.some_bind, hpar, hpn, Option.map_some,
      Option.map_some', Option.getD_some]
  · have hfilter : (pn.children ++ [t.arena.length]).filter
        (fun c => decide (childEventId ((pAddNode t e (.evt p)).2) c ≠ e.id)) = pn.children := by
      rw [List.filter_append]
      have h1 : pn.children.filter
          (fun c => decide (childEventId ((pAddNode t e (.evt p)).2) c ≠ e.id)) = pn.children :=
        List.filter_eq_self.mpr (fun c hc => by simp [hid_ne c hc])
      have h2 : ([t.arena.length] : List Nat).filter
          (fun c => decide (childEventId ((pAddNode t e (.evt p)).2) c ≠ e.id)) = [] := by
        have h3 : childEventId ((pAddNode t e (.evt p)).2) t.arena.length = e.id := by
          unfold childEventId
          rw [hnew]
          rfl
        simp [List.filter, h3]
      rw [h1, h2, List.append_nil]
    unfold pGetSiblings
    simp only [hkey_e, Option.some_bind, hnew, hpar, hfilter]
    unfold pGetChildren
    simp only [hkey_p_old, Option.some_bind, hpn, Option.map_some, Option.map_some',
      Option.getD_some]

theorem c9_insert_links_witness :
    (pAddNode (mkPTree cEvRoot) cEvA (.evt cEvRoot)).1 = .ok () ∧
    pGetParent ((pAddNode (mkPTree cEvRoot) cEvA (.evt cEvRoot)).2) cEvA.id = some 0 ∧
    pGetChildren ((pAddNode (mkPTree cEvRoot) cEvA (.evt cEvRoot)).2) cEvRoot.id =
      pGetChildren (mkPTree cEvRoot) cEvRoot.id ++ [1] ∧
    pGetSiblings ((pAddNode (mkPTree cEvRoot) cEvA (.evt cEvRoot)).2) cEvA.id =
      pGetChildren (mkPTree cEvRoot) cEvRoot.id :=
  c9_insert_links (mkPTree cEvRoot) cEvA cEvRoot 0
    (by refine ⟨?_, ?_, ?_⟩ <;> decide) (by decide) (by decide)

/-! ## C1 — decomposition is deterministic in the document's structure,
explicit ids, titles and ordering

`processAST` never reads a block's `content`, so two documents that agree
after erasing contents (same structure, same labels, same explicit ids,
same titles, same contexts, same ordering) decompose to literally the same
tree state — in particular, byte-identical addresses for every node.  Each
pass runs on a fresh tree instance, whose context counters start at zero
(the spec scopes the fallback counters to one decomposition pass). -/

theorem erase_fields (b1 b2 : ADoc) (h : erase b1 = erase b2) :
    b1.lbl = b2.lbl ∧ b1.ident = b2.ident ∧ b1.title = b2.title ∧
    b1.context = b2.context ∧ b1.blocks.map erase = b2.blocks.map erase := by
  cases b1 with
  | mk l1 i1 t1 c1 s1 bs1 =>
    cases b2 with
    | mk l2 i2 t2 c2 s2 bs2 =>
      rw [erase_mk, erase_mk] at h
      injection h with h1 h2 h3 h4 h5 h6
      exact ⟨h1, h2, h3, h4, h6⟩

theorem getId_congr (st : AState) (b1 b2 : ADoc) (h1 : b1.lbl = b2.lbl)
    (h2 : b1.ident = b2.ident) : getId st b1 = getId st b2 := by
  unfold getId
  rw [h1, h2]

theorem aGenFallback_congr (st : AState) (b1 b2 : ADoc) (h1 : b1.lbl = b2.lbl)
    (h4 : b1.context = b2.context) : aGenFallback st b1 = aGenFallback st b2 := by
  unfold aGenFallback
  rw [h1, h4]

theorem aGenTitleOrFallback_congr (dec : String → String) (st : AState) (b1 b2 : ADoc)
    (h1 : b1.lbl = b2.lbl) (h3 : b1.title = b2.title) (h4 : b1.context = b2.context) :
    aGenTitleOrFallback dec st b1 = aGenTitleOrFallback dec st b2 := by
  unfold aGenTitleOrFallback
  rw [h3]
  cases hm : normalizeId dec b2.title with
  | none => simp only [hm]; exact aGenFallback_congr st b1 b2 h1 h4
  | some s =>
    simp only [hm]
    by_cases hs : s.length > 0
    · simp [hs]
    · simp only [hs, if_false]
      exact aGenFallback_congr st b1 b2 h1 h4

theorem aGenerateAddress_congr (dec : String → String) (st : AState) (b1 b2 : ADoc)
    (h : erase b1 = erase b2) : aGenerateAddress dec st b1 = aGenerateAddress dec st b2 := by
  obtain ⟨h1, h2, h3, h4, -⟩ := erase_fields b1 b2 h
  unfold aGenerateAddress
  rw [getId_congr st b1 b2 h1 h2]
  cases hm : normalizeId dec (getId st b2) with
  | none => simp only [hm]; exact aGenTitleOrFallback_congr dec st b1 b2 h1 h3 h4
  | some s =>
    simp only [hm]
    by_cases hs : s.length > 0
    · simp [hs]
    · simp only [hs, if_false]
      exact aGenTitleOrFallback_congr dec st b1 b2 h1 h3 h4

theorem aAddNode_congr (dec : String → String) (st : AState) (b1 b2 : ADoc) (pa : String)
    (h : erase b1 = erase b2) : aAddNode dec st b1 pa = aAddNode dec st b2 pa := by
  obtain ⟨-, -, h3, -, -⟩ := erase_fields b1 b2 h
  unfold aAddNode
  rw [aGenerateAddress_congr dec st b1 b2 h]
  cases hm : aGenerateAddress dec st b2 with
  | error e => simp only [hm]
  | ok pr =>
    simp only [hm]
    rw [h3]

theorem processSection_congr (dec : String → String) (st : AState) (b1 b2 p1 p2 : ADoc)
    (hb : erase b1 = erase b2) (hp : erase p1 = erase p2) :
    processSection dec st b1 p1 = processSection dec st b2 p2 := by
  unfold processSection
  rw [aGenerateAddress_congr dec st b1 b2 hb]
  cases hm : aGenerateAddress dec st b2 with
  | error e => simp only [hm]
  | ok pr =>
    simp only [hm]
    rw [aGenerateAddress_congr dec pr.2 p1 p2 hp]
    cases hm2 : aGenerateAddress dec pr.2 p2 with
    | error e => simp only [hm2]
    | ok pr2 =>
      simp only [hm2]
      rw [aAddNode_congr dec pr2.2 b1 b2 pr2.1 hb]

theorem processBlock_congr (dec : String → String) (st : AState) (b1 b2 p1 p2 : ADoc)
    (hb : erase b1 = erase b2) (hp : erase p1 = erase p2) :
    processBlock dec st b1 p1 = processBlock dec st b2 p2 := by
  unfold processBlock
  rw [aGenerateAddress_congr dec st b1 b2 hb]
  cases hm : aGenerateAddress dec st b2 with
  | error e => simp only [hm]
  | ok pr =>
    simp only [hm]
    rw [aGenerateAddress_congr dec pr.2 p1 p2 hp]
    cases hm2 : aGenerateAddress dec pr.2 p2 with
    | error e => simp only [hm2]
    | ok pr2 =>
      simp only [hm2]
      rw [aAddNode_congr dec pr2.2 b1 b2 pr2.1 hb]

theorem asize_pos (b : ADoc) : 1 ≤ asize b := by
  rw [asize_eq]
  omega

/-- The queues of two BFS runs that agree after erasing block contents
produce the same result. -/
theorem bfs_congr (dec : String → String) :
    ∀ (N : Nat) (q1 q2 : List (ADoc × ADoc)) (st : AState), qsize q1 ≤ N →
      q1.map (fun pr => (erase pr.1, erase pr.2)) =
        q2.map (fun pr => (erase pr.1, erase pr.2)) →
      bfs dec st q1 = bfs dec st q2 := by
  intro N
  induction N with
  | zero =>
    intro q1 q2 st hN hrel
    have hq1 : q1 = [] := by
      cases q1 with
      | nil => rfl
      | cons pr r =>
        rw [qsize_cons] at hN
        have := asize_pos pr.1
        omega
    subst hq1
    have hq2 : q2 = [] := by
      cases q2 with
      | nil => rfl
      | cons pr r => cases hrel
    subst hq2
    rfl
  | succ N ih =>
    intro q1 q2 st hN hrel
    cases q1 with
    | nil =>
      cases q2 with
      | nil => rfl
      | cons pr r => cases hrel
    | cons pr1 r1 =>
      cases q2 with
      | nil => cases hrel
      | cons pr2 r2 =>
        obtain ⟨b1, p1⟩ := pr1
        obtain ⟨b2, p2⟩ := pr2
        simp only [List.map_cons, List.cons.injEq, Prod.mk.injEq] at hrel
        obtain ⟨⟨hbb, hpp⟩, hrest⟩ := hrel
        obtain ⟨hl, hi, ht, hctx, hbl⟩ := erase_fields b1 b2 hbb
        simp only [bfs]
        by_cases hsec : b1.context = "section"
        · have hsec2 : b2.context = "section" := by rw [← hctx]; exact hsec
          rw [if_pos hsec, if_pos hsec2,
            processSection_congr dec st b1 b2 p1 p2 hbb hpp]
          cases hps : processSection dec st b2 p2 with
          | error e => simp only [hps]
          | ok st' =>
            simp only [hps]
            apply ih
            · rw [qsize_cons] at hN
              rw [qsize_append, qsize_map_pair]
              have := asize_eq b1
              omega
            · rw [List.map_append, List.map_append, hrest]
              congr 1
              rw [List.map_map, List.map_map]
              have e1 : ((fun pr : ADoc × ADoc => (erase pr.1, erase pr.2)) ∘
                  (fun c => (c, b1))) = (fun x => (x, erase b1)) ∘ erase := rfl
              have e2 : ((fun pr : ADoc × ADoc => (erase pr.1, erase pr.2)) ∘
                  (fun c => (c, b2))) = (fun x => (x, erase b2)) ∘ erase := rfl
              rw [e1, e2, ← List.map_map, ← List.map_map, hbl, hbb]
        · have hsec2 : ¬ (b2.context = "section") := by rw [← hctx]; exact hsec
          rw [if_neg hsec, if_neg hsec2,
            processBlock_congr dec st b1 b2 p1 p2 hbb hpp]
          cases hps : processBlock dec st b2 p2 with
          | error e => simp only [hps]
          | ok st' =>
            simp only [hps]
            apply ih
            · rw [qsize_cons] at hN
              have := asize_pos b1
              omega
            · exact hrest

/-- C1: two decomposition passes over documents that agree in structure,
labels, explicit ids, titles, contexts and block ordering (i.e. that are
equal after erasing block contents — in particular, two passes over one
unchanged document) produce literally the same tree state, and hence the
same address for every node, byte for byte.  Each pass starts from a fresh
tree instance with zeroed context counters. -/
theorem c1_decomposition_deterministic (dec : String → String) (pk : String)
    (d1 d2 : ADoc) (h : erase d1 = erase d2) :
    processAST dec pk d1 = processAST dec pk d2 := by
  obtain ⟨h1, h2, h3, h4, h6⟩ := erase_fields d1 d2 h
  unfold processAST
  rw [aGenerateAddress_congr dec (AState.init pk) d1 d2 h]
  cases hm : aGenerateAddress dec (AState.init pk) d2 with
  | error e => simp only [hm]
  | ok pr =>
    simp only [hm]
    rw [h3]
    apply bfs_congr dec (qsize (d1.blocks.map (fun b => (b, d1))))
    · exact le_refl _
    · rw [List.map_map, List.map_map]
      have e1 : ((fun pr : ADoc × ADoc => (erase pr.1, erase pr.2)) ∘
          (fun b => (b, d1))) = (fun x => (x, erase d1)) ∘ erase := rfl
      have e2 : ((fun pr : ADoc × ADoc => (erase pr.1, erase pr.2)) ∘
          (fun b => (b, d2))) = (fun x => (x, erase d2)) ∘ erase := rfl
      rw [e1, e2, ← List.map_map, ← List.map_map, h6, h]

/-- Witness documents: identical structure, ids, titles and ordering, but
different block contents. -/
def c1D1 : ADoc :=
  .mk 0 none (some "Book") "document" "first source"
    [.mk 1 none (some "Chapter") "section" "alpha"
      [.mk 2 none none "paragraph" "one" []]]

def c1D2 : ADoc :=
  .mk 0 none (some "Book") "document" "second source"
    [.mk 1 none (some "Chapter") "section" "beta"
      [.mk 2 none none "paragraph" "two" []]]

theorem c1_decomposition_deterministic_witness :
    processAST (fun s => s) "pk" c1D1 = processAST (fun s => s) "pk" c1D2 :=
  c1_decomposition_deterministic (fun s => s) "pk" c1D1 c1D2
    (by simp [c1D1, c1D2, erase_mk])

end Alexandria
